import Mathlib

/-!
Verification of the runtime-abstraction layer (`src/rt/mod.rs` and the
buffer/stream contracts it re-exports from its `io` submodule).

The `Timer` and `Sleep` traits are embedded directly from `src/rt/mod.rs`.
The `ReadBuf`/`ReadBufCursor` buffer protocol and the `Write` contract live
in the `io` submodule, whose source file is not part of the excerpt; those
definitions are modelled from the specification text (section 4.1 and 4.2),
each marked `Modelled from the spec:` in its doc comment.

Machine conventions: bytes are `Nat`, `Duration` and `Instant` are `Nat`
(an abstract count of time units), buffer storage is a `List Nat`.
-/

set_option autoImplicit false

namespace HyperRt

/-- The standard-library poll result for a single non-blocking attempt:
either `pending` (no progress possible now, wakeup registered) or
`ready v` (the attempt completed with value `v`). -/
inductive Poll (α : Type) where
  | pending
  | ready (value : α)
deriving DecidableEq, Repr

/-! ## Buffer Cursor / Read Buffer (modelled from the spec, io.rs absent) -/

/-- Modelled from the spec: a Read Buffer owns a contiguous span of memory of
fixed capacity, and tracks `filled` (bytes known to hold valid data) and
`initialized` (bytes written at least once, even if stale).  The storage is
`data`; the capacity is `data.length`. -/
structure ReadBuf where
  data : List Nat
  filled : Nat
  initialized : Nat
deriving DecidableEq, Repr

/-- The fixed capacity of the buffer's storage. -/
def ReadBuf.capacity (b : ReadBuf) : Nat := b.data.length

/-- The data-model invariant from the spec: `filled <= initialized <= capacity`. -/
def ReadBuf.Inv (b : ReadBuf) : Prop :=
  b.filled ≤ b.initialized ∧ b.initialized ≤ b.capacity

instance (b : ReadBuf) : Decidable b.Inv := by
  unfold ReadBuf.Inv; infer_instance

/-- Modelled from the spec: `remaining()` is the number of unfilled bytes. -/
def ReadBuf.remaining (b : ReadBuf) : Nat := b.capacity - b.filled

/-- Overwrite the bytes of `data` starting at position `off` with `bytes`;
positions outside `data` are ignored (the buffer never grows). -/
def writeAt : List Nat → Nat → List Nat → List Nat
  | [], _, _ => []
  | d :: ds, off + 1, bs => d :: writeAt ds off bs
  | d :: ds, 0, [] => d :: ds
  | _ :: ds, 0, b :: bs => b :: writeAt ds 0 bs

/-- Modelled from the spec: writing `bytes` through the mutable tail returned
by `uninit_tail()`, which exposes exactly the positions in
`[filled, capacity)`.  A write that would run past the capacity is a contract
violation (the tail is not that long), reported as `none`.  Writing through
the tail changes stored bytes only; it moves neither `filled` nor
`initialized`. -/
def ReadBuf.write_tail (b : ReadBuf) (bytes : List Nat) : Option ReadBuf :=
  if b.filled + bytes.length ≤ b.capacity then
    some { b with data := writeAt b.data b.filled bytes }
  else none

/-- Modelled from the spec: `advance(n)` asserts `filled + n <= initialized`
and fails (contract violation, `none`) if violated; on success it increases
`filled` by `n` and changes nothing else. -/
def ReadBuf.advance (b : ReadBuf) (n : Nat) : Option ReadBuf :=
  if b.filled + n ≤ b.initialized then
    some { b with filled := b.filled + n }
  else none

/-- Modelled from the spec: `assume_init(n)` asserts the caller has written
real bytes into `[initialized, initialized + n)` and increases `initialized`
by `n`; advancing `initialized` past the capacity is a contract violation
(`none`). -/
def ReadBuf.assume_init (b : ReadBuf) (n : Nat) : Option ReadBuf :=
  if b.initialized + n ≤ b.capacity then
    some { b with initialized := b.initialized + n }
  else none

/-- Modelled from the spec: `filled()` is the read-only view of `[0, filled)`
as a byte slice, the only data an application ever consumes. -/
def ReadBuf.filled_bytes (b : ReadBuf) : List Nat := b.data.take b.filled

/-- Modelled from the spec: `clear()` resets `filled` to 0 and does not reset
`initialized` (nor touch the storage). -/
def ReadBuf.clear (b : ReadBuf) : ReadBuf := { b with filled := 0 }

/-- One operation of the Buffer Cursor / Read Buffer protocol.  The read-only
queries `remaining()` and `filled()` have no state effect and are embedded as
the functions `ReadBuf.remaining` and `ReadBuf.filled_bytes`. -/
inductive BufOp where
  | advance (n : Nat)
  | assume_init (n : Nat)
  | write_tail (bytes : List Nat)
  | clear
deriving DecidableEq, Repr

/-- Apply one operation; `none` is a contract violation (fail fast). -/
def step (b : ReadBuf) : BufOp → Option ReadBuf
  | .advance n => b.advance n
  | .assume_init n => b.assume_init n
  | .write_tail bytes => b.write_tail bytes
  | .clear => some b.clear

/-- Apply a sequence of operations, aborting at the first contract
violation. -/
def runOps (b : ReadBuf) : List BufOp → Option ReadBuf
  | [] => some b
  | op :: ops =>
    match step b op with
    | some b' => runOps b' ops
    | none => none

/-- Operations of the Buffer Cursor proper (spec section 3): the cursor
exposes the uninit tail, `advance` and `assume_init`; `clear` belongs to the
Read Buffer recycle path, not to the cursor. -/
def BufOp.isCursorOp : BufOp → Bool
  | .clear => false
  | _ => true

/-! ## Async Write contract (modelled from the spec, io.rs absent) -/

/-- Modelled from the spec: one write call of the Async Write contract.  The
caller offers the immutable slice `buf`; `delivered` is the data the layer has
handed to the transport so far.  The implementation-specific amount of room
currently available is abstracted as `accept` (`none` models the Pending
case, in which nothing is delivered).  The call reports how many leading
bytes were accepted and appends exactly that prefix to `delivered`; the
remainder stays with the caller. -/
def write (accept : Option Nat) (delivered buf : List Nat) :
    Poll Nat × List Nat :=
  match accept with
  | none => (Poll.pending, delivered)
  | some a =>
    let k := min a buf.length
    (Poll.ready k, delivered ++ buf.take k)

/-! ## Timer / Sleep (embedded from src/rt/mod.rs) -/

/-- Embeds `pub trait Sleep: Send + Sync + Future<Output = ()>` from
src/rt/mod.rs.  A Sleep is a future whose output type the trait fixes to the
unit type; its only capability is to be polled, here indexed by an abstract
time/environment parameter. -/
structure Sleep where
  poll : Nat → Poll Unit

/-- Embeds `pub trait Timer` from src/rt/mod.rs: `sleep(duration)` and
`sleep_until(deadline)` return boxed Sleep values; `reset` retargets an
existing Sleep (the `&mut Pin<Box<dyn Sleep>>` is modelled by taking the old
value and returning the new one).  `Duration` and `Instant` are abstract
`Nat` time counts.  An implementation may override `reset`; the provided
default body is `Timer.defaultReset` below. -/
structure Timer where
  sleep : Nat → Sleep
  sleep_until : Nat → Sleep
  reset : Sleep → Nat → Sleep

/-- The provided default body of `Timer::reset` from src/rt/mod.rs:
`*sleep = self.sleep_until(new_deadline);`. -/
def Timer.defaultReset (t : Timer) : Sleep → Nat → Sleep :=
  fun _sleep new_deadline => t.sleep_until new_deadline

/-- A Sleep that is already resolved at every poll. -/
def immediateSleep : Sleep := ⟨fun _ => Poll.ready Unit.unit⟩

/-- A Sleep that is still pending at every poll. -/
def pendingSleep : Sleep := ⟨fun _ => Poll.pending⟩

/-- A concrete Timer whose `reset` keeps the provided default body. -/
def constTimer : Timer :=
  { sleep := fun _ => immediateSleep
    sleep_until := fun _ => immediateSleep
    reset := fun _sleep _new_deadline => immediateSleep }

/-! ## Helper lemmas -/

theorem writeAt_length (data : List Nat) (off : Nat) (bytes : List Nat) :
    (writeAt data off bytes).length = data.length := by
  induction data generalizing off bytes with
  | nil => simp [writeAt]
  | cons d ds ih =>
    cases off with
    | zero =>
      cases bytes with
      | nil => simp [writeAt]
      | cons b bs => simp [writeAt, ih]
    | succ o => simp [writeAt, ih]

theorem writeAt_take (data bytes : List Nat) (h : bytes.length ≤ data.length) :
    (writeAt data 0 bytes).take bytes.length = bytes := by
  induction bytes generalizing data with
  | nil => simp
  | cons b bs ih =>
    cases data with
    | nil => simp at h
    | cons d ds =>
      simp only [writeAt, List.length_cons, List.take_succ_cons]
      exact congrArg (b :: ·) (ih ds (by simpa using h))

/-! ## Claim theorems -/

/-- C1: For every sequence of Buffer Cursor / Read Buffer operations
(uninit_tail writes, advance, assume_init, filled, clear), after every
operation the state satisfies `filled <= initialized <= capacity`.  Stated as
preservation by every single operation from every state satisfying the
invariant; since a fresh buffer satisfies it and the queries have no state
effect, it holds after every operation of every sequence. -/
theorem step_preserves_inv (b : ReadBuf) (op : BufOp) (b' : ReadBuf)
    (hinv : b.Inv) (h : step b op = some b') : b'.Inv := by
  obtain ⟨h1, h2⟩ := hinv
  cases op with
  | advance n =>
    simp only [step, ReadBuf.advance] at h
    split at h
    · cases h
      exact ⟨‹b.filled + n ≤ b.initialized›, h2⟩
    · cases h
  | assume_init n =>
    simp only [step, ReadBuf.assume_init] at h
    split at h
    · cases h
      exact ⟨le_trans h1 (Nat.le_add_right _ _),
        ‹b.initialized + n ≤ b.capacity›⟩
    · cases h
  | write_tail bytes =>
    simp only [step, ReadBuf.write_tail] at h
    split at h
    · cases h
      exact ⟨h1, by simpa [ReadBuf.capacity, writeAt_length] using h2⟩
    · cases h
  | clear =>
    simp only [step, ReadBuf.clear] at h
    cases h
    exact ⟨Nat.zero_le _, h2⟩

theorem step_preserves_inv_witness :
    ReadBuf.Inv (ReadBuf.mk [0, 0, 0] 0 2) :=
  step_preserves_inv (ReadBuf.mk [0, 0, 0] 0 0) (BufOp.assume_init 2)
    (ReadBuf.mk [0, 0, 0] 0 2) (by decide) rfl

/-- C2: `advance(n)` fails (reports a contract violation, `none`) exactly
when `filled + n > initialized`; on success it increases `filled` by exactly
`n`, leaving `initialized` (and the stored bytes) unchanged. -/
theorem advance_fails_iff (b b' : ReadBuf) (n : Nat) :
    (b.advance n = none ↔ b.initialized < b.filled + n) ∧
    (b.advance n = some b' →
      b'.filled = b.filled + n ∧ b'.initialized = b.initialized ∧
      b'.data = b.data) := by
  constructor
  · unfold ReadBuf.advance
    split
    · simp
      omega
    · simp
      omega
  · intro h
    unfold ReadBuf.advance at h
    split at h
    · cases h
      exact ⟨rfl, rfl, rfl⟩
    · cases h

theorem advance_fails_iff_witness :
    (ReadBuf.mk [0, 0] 1 2).filled = (ReadBuf.mk [0, 0] 0 2).filled + 1 ∧
    (ReadBuf.mk [0, 0] 1 2).initialized = (ReadBuf.mk [0, 0] 0 2).initialized ∧
    (ReadBuf.mk [0, 0] 1 2).data = (ReadBuf.mk [0, 0] 0 2).data :=
  (advance_fails_iff (ReadBuf.mk [0, 0] 0 2) (ReadBuf.mk [0, 0] 1 2) 1).2 rfl

/-- C4: `clear()` sets `filled` to 0 and leaves `initialized`, the capacity
and the stored bytes unchanged. -/
theorem clear_frame (b : ReadBuf) :
    b.clear.filled = 0 ∧ b.clear.initialized = b.initialized ∧
    b.clear.capacity = b.capacity ∧ b.clear.data = b.data :=
  ⟨rfl, rfl, rfl, rfl⟩

/-- C3: Round trip.  For a fresh Read Buffer (`filled = initialized = 0`,
storage holding arbitrary garbage) of capacity at least 3, writing the bytes
`[1, 2, 3]` through `uninit_tail`, then `assume_init(3)` followed by
`advance(3)`, succeeds and makes `filled()` return exactly `[1, 2, 3]`. -/
theorem round_trip (data : List Nat) (h : 3 ≤ data.length) :
    ∃ b' : ReadBuf,
      runOps (ReadBuf.mk data 0 0)
        [BufOp.write_tail [1, 2, 3], BufOp.assume_init 3, BufOp.advance 3]
        = some b' ∧
      b'.filled_bytes = [1, 2, 3] := by
  refine ⟨ReadBuf.mk (writeAt data 0 [1, 2, 3]) 3 3, ?_, ?_⟩
  · simp only [runOps, step, ReadBuf.write_tail, ReadBuf.assume_init,
      ReadBuf.advance, ReadBuf.capacity]
    rw [if_pos (by simpa using h)]
    simp only [runOps]
    rw [if_pos (by simpa [writeAt_length] using h)]
    simp [runOps]
  · simpa [ReadBuf.filled_bytes] using writeAt_take data [1, 2, 3] h

theorem round_trip_witness :
    ∃ b' : ReadBuf,
      runOps (ReadBuf.mk [9, 9, 9, 9] 0 0)
        [BufOp.write_tail [1, 2, 3], BufOp.assume_init 3, BufOp.advance 3]
        = some b' ∧
      b'.filled_bytes = [1, 2, 3] :=
  round_trip [9, 9, 9, 9] (by decide)

/-- C6: Every Buffer Cursor operation (writes through the uninit tail,
`advance`, `assume_init`; `clear` is a Read Buffer recycle operation, not a
cursor operation) is monotone: it never rewinds `filled` or `initialized`;
and advancing either extent past the capacity is a contract violation that
fails fast (`none`). -/
theorem cursor_monotone (b b' : ReadBuf) (op : BufOp) (n : Nat)
    (hinv : b.Inv) (hc : op.isCursorOp = true) :
    (step b op = some b' →
      b.filled ≤ b'.filled ∧ b.initialized ≤ b'.initialized) ∧
    (b.capacity < b.filled + n → b.advance n = none) ∧
    (b.capacity < b.initialized + n → b.assume_init n = none) := by
  obtain ⟨h1, h2⟩ := hinv
  refine ⟨?_, ?_, ?_⟩
  · intro h
    cases op with
    | advance m =>
      simp only [step, ReadBuf.advance] at h
      split at h
      · cases h
        exact ⟨Nat.le_add_right _ _, le_refl _⟩
      · cases h
    | assume_init m =>
      simp only [step, ReadBuf.assume_init] at h
      split at h
      · cases h
        exact ⟨le_refl _, Nat.le_add_right _ _⟩
      · cases h
    | write_tail bytes =>
      simp only [step, ReadBuf.write_tail] at h
      split at h
      · cases h
        exact ⟨le_refl _, le_refl _⟩
      · cases h
    | clear => cases hc
  · intro hpast
    unfold ReadBuf.advance
    rw [if_neg (by omega)]
  · intro hpast
    unfold ReadBuf.assume_init
    rw [if_neg (by omega)]

theorem cursor_monotone_witness :
    (ReadBuf.mk [0, 0] 0 0).filled ≤ (ReadBuf.mk [0, 0] 0 1).filled ∧
    (ReadBuf.mk [0, 0] 0 0).initialized ≤ (ReadBuf.mk [0, 0] 0 1).initialized :=
  (cursor_monotone (ReadBuf.mk [0, 0] 0 0) (ReadBuf.mk [0, 0] 0 1)
    (BufOp.assume_init 1) 0 (by decide) rfl).1 rfl

/-- C8: A write call offered an n-byte slice reports accepting `k <= n`
bytes; exactly the k-byte prefix is delivered (never more), and resubmitting
the n-k-byte remainder delivers the rest exactly once — nothing is
double-delivered or dropped. -/
theorem write_accepts_prefix (accept : Option Nat) (delivered buf : List Nat)
    (k : Nat) (h : (write accept delivered buf).1 = Poll.ready k) :
    k ≤ buf.length ∧
    (write accept delivered buf).2 = delivered ++ buf.take k ∧
    (write (some (buf.length - k))
        ((write accept delivered buf).2) (buf.drop k)).2
      = delivered ++ buf := by
  cases accept with
  | none => cases h
  | some a =>
    simp only [write, Poll.ready.injEq] at h
    subst h
    refine ⟨Nat.min_le_right _ _, rfl, ?_⟩
    simp only [write, List.length_drop, Nat.min_self]
    have hd : (List.drop (a ⊓ buf.length) buf).length
        = buf.length - a ⊓ buf.length := by
      simp
    rw [← hd, List.take_length, List.append_assoc, List.take_append_drop]

theorem write_accepts_prefix_witness :
    2 ≤ ([5, 6, 7] : List Nat).length ∧
    (write (some 2) [] [5, 6, 7]).2 = [] ++ ([5, 6, 7] : List Nat).take 2 ∧
    (write (some (([5, 6, 7] : List Nat).length - 2))
        ((write (some 2) [] [5, 6, 7]).2) (([5, 6, 7] : List Nat).drop 2)).2
      = [] ++ [5, 6, 7] :=
  write_accepts_prefix (some 2) [] [5, 6, 7] 2 rfl

/-- C5: For every Timer implementation that does not override `reset` (its
`reset` is the provided default body), every prior Sleep value and every
new deadline, `reset` replaces the Sleep with exactly the result of
`sleep_until(new_deadline)` on the same Timer. -/
theorem reset_default_eq_sleep_until (t : Timer) (s : Sleep) (d : Nat)
    (h : t.reset = t.defaultReset) : t.reset s d = t.sleep_until d := by
  rw [h]
  rfl

theorem reset_default_eq_sleep_until_witness :
    constTimer.reset immediateSleep 5 = constTimer.sleep_until 5 :=
  reset_default_eq_sleep_until constTimer immediateSleep 5 rfl

/-- C9: Two-run property of the default `reset`: for any two prior Sleep
values (for instance one already resolved and one still pending) and the same
Timer and new deadline, the default `reset` produces the same resulting
Sleep — it never reads the prior Sleep's state, only overwrites it. -/
theorem reset_default_ignores_prior (t : Timer) (s₁ s₂ : Sleep) (d : Nat)
    (h : t.reset = t.defaultReset) : t.reset s₁ d = t.reset s₂ d := by
  rw [h]
  rfl

theorem reset_default_ignores_prior_witness :
    constTimer.reset immediateSleep 7 = constTimer.reset pendingSleep 7 :=
  reset_default_ignores_prior constTimer immediateSleep pendingSleep 7 rfl

/-- C10: Every Sleep resolves with the unit value: the Sleep contract fixes
the future's output type to the unit type, so polling a Sleep either reports
pending or resolves carrying no data or error payload. -/
theorem sleep_resolves_unit (s : Sleep) (t : Nat) :
    s.poll t = Poll.pending ∨ s.poll t = Poll.ready Unit.unit := by
  cases hp : s.poll t with
  | pending => exact Or.inl rfl
  | ready v => exact Or.inr (by cases v; rfl)

end HyperRt
